import Mathlib

/-!
Verification of the perspective-projection geometry core.

The definitions below are a shallow embedding of the JavaScript source:
floating-point numbers are modelled as real numbers, fallible results as
Option, and the one-slot world-vertex cache as explicit state passing.
Function and variable names follow the source.
-/

noncomputable section

open Real

/-- A planar point (THREE.Vector2 / plain x-y object in the source). -/
structure Vec2 where
  x : ℝ
  y : ℝ

/-- A spatial point or direction (THREE.Vector3 in the source). -/
structure Vec3 where
  x : ℝ
  y : ℝ
  z : ℝ

instance : Add Vec3 := ⟨fun a b => ⟨a.x + b.x, a.y + b.y, a.z + b.z⟩⟩

instance : Sub Vec3 := ⟨fun a b => ⟨a.x - b.x, a.y - b.y, a.z - b.z⟩⟩

instance : SMul ℝ Vec3 := ⟨fun t v => ⟨t * v.x, t * v.y, t * v.z⟩⟩

@[simp] theorem Vec3.add_x (a b : Vec3) : (a + b).x = a.x + b.x := rfl

@[simp] theorem Vec3.add_y (a b : Vec3) : (a + b).y = a.y + b.y := rfl

@[simp] theorem Vec3.add_z (a b : Vec3) : (a + b).z = a.z + b.z := rfl

@[simp] theorem Vec3.sub_x (a b : Vec3) : (a - b).x = a.x - b.x := rfl

@[simp] theorem Vec3.sub_y (a b : Vec3) : (a - b).y = a.y - b.y := rfl

@[simp] theorem Vec3.sub_z (a b : Vec3) : (a - b).z = a.z - b.z := rfl

@[simp] theorem Vec3.smul_x (t : ℝ) (v : Vec3) : (t • v).x = t * v.x := rfl

@[simp] theorem Vec3.smul_y (t : ℝ) (v : Vec3) : (t • v).y = t * v.y := rfl

@[simp] theorem Vec3.smul_z (t : ℝ) (v : Vec3) : (t • v).z = t * v.z := rfl

/-- Dot product of two 3D vectors (THREE.Vector3.dot). -/
def dot3 (a b : Vec3) : ℝ := a.x * b.x + a.y * b.y + a.z * b.z

/-- The two-argument arctangent, modelling the semantics of JavaScript
Math.atan2(y, x). -/
def atan2 (y x : ℝ) : ℝ :=
  if 0 < x then Real.arctan (y / x)
  else if x < 0 then
    (if 0 ≤ y then Real.arctan (y / x) + π else Real.arctan (y / x) - π)
  else
    (if 0 < y then π / 2 else if y < 0 then -(π / 2) else 0)

/-- Result record of findCircle in the source: {x, y, radius}. -/
structure CircleData where
  x : ℝ
  y : ℝ
  radius : ℝ

/-- Result record of computeCircleFromThreePoints in the source:
{center, radius}. -/
structure CircleCR where
  center : Vec2
  radius : ℝ

/-- findCircle from the source: circumscribed circle of three points, or
none when the collinearity denominator D is below the 1e-8 tolerance. -/
def findCircle (p1 p2 p3 : Vec2) : Option CircleData :=
  let D := 2 * (p1.x * (p2.y - p3.y) + p2.x * (p3.y - p1.y) + p3.x * (p1.y - p2.y))
  if |D| < 1e-8 then none
  else
    let p1_sq := p1.x * p1.x + p1.y * p1.y
    let p2_sq := p2.x * p2.x + p2.y * p2.y
    let p3_sq := p3.x * p3.x + p3.y * p3.y
    let centerX := (p1_sq * (p2.y - p3.y) + p2_sq * (p3.y - p1.y) + p3_sq * (p1.y - p2.y)) / D
    let centerY := (p1_sq * (p3.x - p2.x) + p2_sq * (p1.x - p3.x) + p3_sq * (p2.x - p1.x)) / D
    let radius := Real.sqrt ((p1.x - centerX) ^ 2 + (p1.y - centerY) ^ 2)
    some ⟨centerX, centerY, radius⟩

/-- computeCircleFromThreePoints from the source: circumscribed circle, or
none when the triangle area is below the 0.001 tolerance. -/
def computeCircleFromThreePoints (p1 p2 p3 : Vec2) : Option CircleCR :=
  let d := 2 * (p1.x * (p2.y - p3.y) + p2.x * (p3.y - p1.y) + p3.x * (p1.y - p2.y))
  let area := |(p2.x - p1.x) * (p3.y - p1.y) - (p3.x - p1.x) * (p2.y - p1.y)| / 2
  if area < 0.001 then none
  else
    let ux := ((p1.x * p1.x + p1.y * p1.y) * (p2.y - p3.y) + (p2.x * p2.x + p2.y * p2.y) * (p3.y - p1.y) + (p3.x * p3.x + p3.y * p3.y) * (p1.y - p2.y)) / d
    let uy := ((p1.x * p1.x + p1.y * p1.y) * (p3.x - p2.x) + (p2.x * p2.x + p2.y * p2.y) * (p1.x - p3.x) + (p3.x * p3.x + p3.y * p3.y) * (p2.x - p1.x)) / d
    some ⟨⟨ux, uy⟩, Real.sqrt ((p1.x - ux) ^ 2 + (p1.y - uy) ^ 2)⟩

/-- Exact collinearity of three planar points (zero cross product). -/
def collinear (p1 p2 p3 : Vec2) : Prop :=
  (p2.x - p1.x) * (p3.y - p1.y) - (p3.x - p1.x) * (p2.y - p1.y) = 0

/-- postelProjection from the source: azimuthal-equidistant mapping of a
hemisphere point to the plane. -/
def postelProjection (point3D hemisphereCenter : Vec3) (hemisphereRadius : ℝ) : Vec2 :=
  let relativePoint := point3D - hemisphereCenter
  let cosAlpha := -relativePoint.z / hemisphereRadius
  let alpha := Real.arccos (max (-1) (min 1 cosAlpha))
  let arcLength := alpha * hemisphereRadius
  let theta := atan2 relativePoint.y relativePoint.x
  ⟨arcLength * Real.cos theta, arcLength * Real.sin theta⟩

/-- Polar angle used by postelProjection: acos of the clamped -z/radius. -/
def postelAlpha (point3D hemisphereCenter : Vec3) (hemisphereRadius : ℝ) : ℝ :=
  Real.arccos (max (-1) (min 1 (-(point3D.z - hemisphereCenter.z) / hemisphereRadius)))

/-- Azimuth angle used by postelProjection. -/
def postelTheta (point3D hemisphereCenter : Vec3) : ℝ :=
  atan2 (point3D.y - hemisphereCenter.y) (point3D.x - hemisphereCenter.x)

/-- Quadratic coefficient a of the ray/sphere intersection in the source. -/
def rayQuadA (rayDirection : Vec3) : ℝ := dot3 rayDirection rayDirection

/-- Quadratic coefficient b of the ray/sphere intersection in the source. -/
def rayQuadB (rayOrigin rayDirection hemisphereCenter : Vec3) : ℝ :=
  2 * dot3 (rayOrigin - hemisphereCenter) rayDirection

/-- Quadratic coefficient c of the ray/sphere intersection in the source. -/
def rayQuadC (rayOrigin hemisphereCenter : Vec3) (hemisphereRadius : ℝ) : ℝ :=
  dot3 (rayOrigin - hemisphereCenter) (rayOrigin - hemisphereCenter) - hemisphereRadius * hemisphereRadius

/-- The discriminant b*b - 4*a*c of the ray/sphere quadratic. -/
def rayDiscriminant (rayOrigin rayDirection hemisphereCenter : Vec3) (hemisphereRadius : ℝ) : ℝ :=
  rayQuadB rayOrigin rayDirection hemisphereCenter * rayQuadB rayOrigin rayDirection hemisphereCenter -
    4 * rayQuadA rayDirection * rayQuadC rayOrigin hemisphereCenter hemisphereRadius

/-- The smaller quadratic root t1 of the ray/sphere intersection. -/
def rayT1 (rayOrigin rayDirection hemisphereCenter : Vec3) (hemisphereRadius : ℝ) : ℝ :=
  (-rayQuadB rayOrigin rayDirection hemisphereCenter -
      Real.sqrt (rayDiscriminant rayOrigin rayDirection hemisphereCenter hemisphereRadius)) /
    (2 * rayQuadA rayDirection)

/-- The larger quadratic root t2 of the ray/sphere intersection. -/
def rayT2 (rayOrigin rayDirection hemisphereCenter : Vec3) (hemisphereRadius : ℝ) : ℝ :=
  (-rayQuadB rayOrigin rayDirection hemisphereCenter +
      Real.sqrt (rayDiscriminant rayOrigin rayDirection hemisphereCenter hemisphereRadius)) /
    (2 * rayQuadA rayDirection)

/-- intersectRayWithHemisphere from the source: quadratic solve, keep the
roots with ray parameter above 0.001, return the point of the smallest
remaining root (the source sorts the valid roots and takes the first). -/
def intersectRayWithHemisphere (rayOrigin rayDirection hemisphereCenter : Vec3) (hemisphereRadius : ℝ) : Option Vec3 :=
  let discriminant := rayDiscriminant rayOrigin rayDirection hemisphereCenter hemisphereRadius
  if discriminant < 0 then none
  else
    let t1 := rayT1 rayOrigin rayDirection hemisphereCenter hemisphereRadius
    let t2 := rayT2 rayOrigin rayDirection hemisphereCenter hemisphereRadius
    let validIntersections :=
      (if t1 > 0.001 then [t1] else []) ++ (if t2 > 0.001 then [t2] else [])
    match validIntersections with
    | [] => none
    | t :: rest => some (rayOrigin + (rest.foldl min t) • rayDirection)

/-- intersectCircles from the source: the 0 or 2 intersection points of two
circles (the degenerate tangent case also yields the doubled point twice). -/
def intersectCircles (c1 : Vec2) (r1 : ℝ) (c2 : Vec2) (r2 : ℝ) : List Vec2 :=
  let dx := c2.x - c1.x
  let dy := c2.y - c1.y
  let distance := Real.sqrt (dx * dx + dy * dy)
  if distance > r1 + r2 ∨ distance < |r1 - r2| ∨ distance = 0 then []
  else
    let a := (r1 * r1 - r2 * r2 + distance * distance) / (2 * distance)
    let h := Real.sqrt (r1 * r1 - a * a)
    let x2 := c1.x + a * dx / distance
    let y2 := c1.y + a * dy / distance
    let rx := -dy * h / distance
    let ry := dx * h / distance
    [⟨x2 + rx, y2 + ry⟩, ⟨x2 - rx, y2 - ry⟩]

/-- intersectLines from the source: intersection of the segments p-q and
r-s, none when near-parallel or when the intersection parameters leave
[0,1]. -/
def intersectLines (p q r s : Vec2) : Option Vec2 :=
  let denominator := (q.x - p.x) * (s.y - r.y) - (q.y - p.y) * (s.x - r.x)
  if |denominator| < 0.001 then none
  else
    let t := ((r.x - p.x) * (s.y - r.y) - (r.y - p.y) * (s.x - r.x)) / denominator
    let u := ((q.x - p.x) * (r.y - p.y) - (q.y - p.y) * (r.x - p.x)) / denominator
    if 0 ≤ t ∧ t ≤ 1 ∧ 0 ≤ u ∧ u ≤ 1 then
      some ⟨p.x + t * (q.x - p.x), p.y + t * (q.y - p.y)⟩
    else none

/-- intersectCircleLine from the source: the 0 or 2 intersection points of
a circle of the given radius and the line through p and q. -/
def intersectCircleLine (radius : ℝ) (p q : Vec2) : List Vec2 :=
  let dx := q.x - p.x
  let dy := q.y - p.y
  let dr := Real.sqrt (dx * dx + dy * dy)
  let D := p.x * q.y - q.x * p.y
  let discriminant := radius * radius * dr * dr - D * D
  if discriminant < 0 then []
  else
    [⟨(D * dy + Real.sign dy * dx * Real.sqrt discriminant) / (dr * dr),
      (-D * dx + |dy| * Real.sqrt discriminant) / (dr * dr)⟩,
     ⟨(D * dy - Real.sign dy * dx * Real.sqrt discriminant) / (dr * dr),
      (-D * dx - |dy| * Real.sqrt discriminant) / (dr * dr)⟩]

/-- The tagged arc records built in updateHemisphericalProjection:
either a circle (with its two defining endpoint anchors) or a line. -/
inductive ArcData where
  | circleArc (center : Vec2) (radius : ℝ) (p1 p2 : Vec2)
  | lineArc (p1 p2 : Vec2)

/-- intersectArcsOrLines from the source: dispatch on the two arc kinds. -/
def intersectArcsOrLines (arc1 arc2 : ArcData) : List Vec2 :=
  match arc1, arc2 with
  | ArcData.lineArc p1 p2, ArcData.lineArc q1 q2 =>
    match intersectLines p1 p2 q1 q2 with
    | some intersection => [intersection]
    | none => []
  | ArcData.circleArc c1 r1 _ _, ArcData.circleArc c2 r2 _ _ => intersectCircles c1 r1 c2 r2
  | ArcData.circleArc _ r _ _, ArcData.lineArc q1 q2 => intersectCircleLine r q1 q2
  | ArcData.lineArc p1 p2, ArcData.circleArc _ r _ _ => intersectCircleLine r p1 p2

/-- One step of the selection loop in selectCorrectIntersection: the
accumulator pairs the best candidate so far with its distance
(none models the initial null / Infinity state). -/
def selectStep (boundaryRadius : ℝ) (best : Option (Vec2 × ℝ)) (intersection : Vec2) : Option (Vec2 × ℝ) :=
  let distance := Real.sqrt (intersection.x * intersection.x + intersection.y * intersection.y)
  match best with
  | none => if distance ≤ boundaryRadius then some (intersection, distance) else none
  | some (b, minDistance) =>
    if distance ≤ boundaryRadius ∧ distance < minDistance then some (intersection, distance)
    else some (b, minDistance)

/-- selectCorrectIntersection from the source: empty list gives none, a
single candidate is returned unchecked, otherwise the loop keeps the
in-boundary candidate closest to the center. -/
def selectCorrectIntersection (intersections : List Vec2) (boundaryRadius : ℝ) : Option Vec2 :=
  match intersections with
  | [] => none
  | [p] => some p
  | _ => (intersections.foldl (selectStep boundaryRadius) none).map Prod.fst

/-- THREE.Vector3.normalize: divide by the length, with length 0 replaced
by 1 (so the zero vector is left unchanged). -/
def normalize3 (v : Vec3) : Vec3 :=
  let length := Real.sqrt (dot3 v v)
  if length = 0 then v else ⟨v.x / length, v.y / length, v.z / length⟩

/-- The shared projection block of updateHemisphericalProjection: from the
theta and phi direction angles, build the two auxiliary circles (or lines)
through the boundary anchors and intersect them; the near-zero angle cases
short-circuit to the axis points. -/
def hemiProjectDirection (theta phi hemisphereRadius : ℝ) : Option Vec2 :=
  let boundaryRadius := (π / 2) * hemisphereRadius
  let p_theta : Vec2 := ⟨0, hemisphereRadius * theta⟩
  let p_phi : Vec2 := ⟨hemisphereRadius * phi, 0⟩
  let X1 : Vec2 := ⟨boundaryRadius, 0⟩
  let X2 : Vec2 := ⟨-boundaryRadius, 0⟩
  let Y1 : Vec2 := ⟨0, boundaryRadius⟩
  let Y2 : Vec2 := ⟨0, -boundaryRadius⟩
  let isThetaZero := |theta| < 0.001
  let isPhiZero := |phi| < 0.001
  if isThetaZero ∧ isPhiZero then some ⟨0, 0⟩
  else if isThetaZero then some p_phi
  else if isPhiZero then some p_theta
  else
    let arc1Data :=
      match computeCircleFromThreePoints p_theta X1 X2 with
      | some arc1 => ArcData.circleArc arc1.center arc1.radius p_theta X2
      | none => ArcData.lineArc p_theta X2
    let arc2Data :=
      match computeCircleFromThreePoints p_phi Y1 Y2 with
      | some arc2 => ArcData.circleArc arc2.center arc2.radius p_phi Y2
      | none => ArcData.lineArc p_phi Y2
    selectCorrectIntersection (intersectArcsOrLines arc1Data arc2Data) boundaryRadius

/-- The elevation angle of a direction in updateHemisphericalProjection:
project to the YZ plane, normalize, and take atan2 of y against the
absolute z. -/
def hemiTheta (direction : Vec3) : ℝ :=
  let v_yz := normalize3 ⟨0, direction.y, direction.z⟩
  atan2 v_yz.y |v_yz.z|

/-- The lateral angle of a direction in updateHemisphericalProjection:
project to the XZ plane, normalize, and take atan2 of x against the
absolute z. -/
def hemiPhi (direction : Vec3) : ℝ :=
  let v_xz := normalize3 ⟨direction.x, 0, direction.z⟩
  atan2 v_xz.x |v_xz.z|

/-- The per-vertex 2D projection of updateHemisphericalProjection. -/
def hemiProjectVertex (worldVertex viewpointPosition : Vec3) (hemisphereRadius : ℝ) : Option Vec2 :=
  let direction := normalize3 (worldVertex - viewpointPosition)
  hemiProjectDirection (hemiTheta direction) (hemiPhi direction) hemisphereRadius

/-- The outside-vanishing-point block of updateHemisphericalProjection:
inversion through the boundary circle, skipped when the inside point is
within 0.001 of the center. -/
def computeOutsideVP (insideVP : Vec2) (boundaryRadius : ℝ) : Option Vec2 :=
  let insideDistance := Real.sqrt (insideVP.x * insideVP.x + insideVP.y * insideVP.y)
  if insideDistance > 0.001 then
    let outsideDistance := boundaryRadius * boundaryRadius / insideDistance
    let insideAngle := atan2 insideVP.y insideVP.x
    let outsideAngle := insideAngle + π
    some ⟨outsideDistance * Real.cos outsideAngle, outsideDistance * Real.sin outsideAngle⟩
  else none

/-- The per-axis vanishing-point-pair computation of
updateHemisphericalProjection (source lines 574-689). -/
def hemiVanishingPointPair (vpDir : Vec3) (hemisphereRadius : ℝ) : Option Vec2 × Option Vec2 :=
  let boundaryRadius := (π / 2) * hemisphereRadius
  let posDirection := normalize3 vpDir
  let negDirection : Vec3 := ⟨-posDirection.x, -posDirection.y, -posDirection.z⟩
  let negZDirection : Vec3 := ⟨0, 0, -1⟩
  let posDotProduct := dot3 posDirection negZDirection
  let negDotProduct := dot3 negDirection negZDirection
  let direction := if posDotProduct > negDotProduct then posDirection else negDirection
  let psi := atan2 direction.y direction.x
  let theta := hemiTheta direction
  let phi := hemiPhi direction
  let isThetaBoundary := abs (|theta| - π / 2) < 0.001
  let isPhiBoundary := abs (|phi| - π / 2) < 0.001
  let isOnBoundary := isThetaBoundary ∨ isPhiBoundary
  let insideVP : Option Vec2 :=
    if isOnBoundary then
      some ⟨boundaryRadius * Real.cos psi, boundaryRadius * Real.sin psi⟩
    else hemiProjectDirection theta phi hemisphereRadius
  let outsideVP : Option Vec2 :=
    match insideVP with
    | some ivp => computeOutsideVP ivp boundaryRadius
    | none => none
  (insideVP, outsideVP)

/-- The boundary-incidence (degeneracy) test of
updateHemisphericalProjection: within 1 percent of the boundary radius. -/
def isBoundaryIncident (distance boundaryRadius : ℝ) : Bool :=
  decide (|distance - boundaryRadius| < boundaryRadius * 0.01)

/-- The per-vertex projection of updateLinearProjection: similar-triangle
projection onto the image plane, re-expressed relative to the viewpoint;
none models the Infinity marker used when the vertex is at the viewpoint
depth. -/
def linearProjectVertex (worldVertex viewpointPosition : Vec3) (currentImagePlaneZ : ℝ) : Option Vec2 :=
  let x := worldVertex.x - viewpointPosition.x
  let y := worldVertex.y - viewpointPosition.y
  let z := worldVertex.z - viewpointPosition.z
  if z ≠ 0 then
    let x_proj := x * (currentImagePlaneZ - viewpointPosition.z) / z + viewpointPosition.x
    let y_proj := y * (currentImagePlaneZ - viewpointPosition.z) / z + viewpointPosition.y
    some ⟨x_proj - viewpointPosition.x, y_proj - viewpointPosition.y⟩
  else none

/-- The per-axis vanishing point of updateLinearProjection: defined only
when the direction's z-component exceeds the 0.0001 threshold in absolute
value; none models the Infinity marker. -/
def linearVanishingPoint (dir viewpointPosition : Vec3) (currentImagePlaneZ : ℝ) : Option Vec2 :=
  if |dir.z| > 0.0001 then
    let t := (currentImagePlaneZ - viewpointPosition.z) / dir.z
    let vp_x := viewpointPosition.x + t * dir.x
    let vp_y := viewpointPosition.y + t * dir.y
    some ⟨vp_x - viewpointPosition.x, vp_y - viewpointPosition.y⟩
  else none

/-- getAngle from the source: a point's angle about the circle center,
normalized to [0, 2*pi). -/
def getAngle (center : CircleData) (point : Vec2) : ℝ :=
  let angle := atan2 (point.y - center.y) (point.x - center.x)
  if angle < 0 then angle + 2 * π else angle

/-- The counter-clockwise betweenness test inside determineArcParameters:
is the middle point's angle in the standard counter-clockwise arc from the
start angle to the end angle. -/
def isMidInCCWArcCheck (startAngle midAngle endAngle : ℝ) : Bool :=
  if startAngle < endAngle then decide (midAngle > startAngle ∧ midAngle < endAngle)
  else decide (midAngle > startAngle ∨ midAngle < endAngle)

/-- The arc parameter record returned by determineArcParameters. -/
structure ArcParams where
  startAngle : ℝ
  endAngle : ℝ
  counterClockwise : Bool

/-- determineArcParameters from the source: the sampling direction flag is
the logical negation of the betweenness test (documented in the source as
found by trial and error). -/
def determineArcParameters (startAngle midAngle endAngle : ℝ) : ArcParams :=
  ⟨startAngle, endAngle, !(isMidInCCWArcCheck startAngle midAngle endAngle)⟩

/-- One sampled point of the arc loop in createArcWithEndpoints; the
final while-loop normalization of the angle into [0, 2*pi) is modelled by
subtracting the floor multiple of 2*pi, which does not change the sampled
cosine and sine. -/
def sampleArcPoint (circle : CircleData) (arcData : ArcParams) (segments i : ℕ) : Vec2 :=
  let t := (i : ℝ) / segments
  let rawAngle :=
    if arcData.counterClockwise then
      (if arcData.startAngle < arcData.endAngle then
        arcData.startAngle + t * (arcData.endAngle - arcData.startAngle)
      else arcData.startAngle + t * (arcData.endAngle + 2 * π - arcData.startAngle))
    else
      (if arcData.startAngle > arcData.endAngle then
        arcData.startAngle - t * (arcData.startAngle - arcData.endAngle)
      else arcData.startAngle - t * (arcData.startAngle + 2 * π - arcData.endAngle))
  let angle := rawAngle - 2 * π * ⌊rawAngle / (2 * π)⌋
  ⟨circle.x + circle.radius * Real.cos angle, circle.y + circle.radius * Real.sin angle⟩

/-- The drawable result of createArcWithEndpoints: a straight segment in
the collinear fallback, or a sampled circular arc tagged with the circle
and arc parameters that generated it. -/
inductive ArcOut where
  | segment (pts : List Vec2)
  | arc (circle : CircleData) (arcData : ArcParams) (pts : List Vec2)

/-- createArcWithEndpoints from the source: find the circle through the
three points (start, middle, end); fall back to the straight segment when
findCircle reports collinearity, otherwise sample the arc selected by
determineArcParameters with 64 segments. -/
def createArcWithEndpoints (startPoint endPoint middlePoint : Vec2) : ArcOut :=
  match findCircle startPoint middlePoint endPoint with
  | none => ArcOut.segment [startPoint, endPoint]
  | some circleData =>
    let startAngle := getAngle circleData startPoint
    let middleAngle := getAngle circleData middlePoint
    let endAngle := getAngle circleData endPoint
    let arcData := determineArcParameters startAngle middleAngle endAngle
    let segments : ℕ := 64
    ArcOut.arc circleData arcData
      ((List.range (segments + 1)).map (fun i => sampleArcPoint circleData arcData segments i))

/-- A 4x4 world matrix (THREE.Matrix4), indexed row then column. -/
abbrev Mat4 := Fin 4 → Fin 4 → ℝ

/-- THREE.Vector3.applyMatrix4: homogeneous transform with perspective
divide. -/
def applyMatrix4 (m : Mat4) (v : Vec3) : Vec3 :=
  let w := 1 / (m 3 0 * v.x + m 3 1 * v.y + m 3 2 * v.z + m 3 3)
  ⟨(m 0 0 * v.x + m 0 1 * v.y + m 0 2 * v.z + m 0 3) * w,
   (m 1 0 * v.x + m 1 1 * v.y + m 1 2 * v.z + m 1 3) * w,
   (m 2 0 * v.x + m 2 1 * v.y + m 2 2 * v.z + m 2 3) * w⟩

/-- config.CUBE_SIZE. -/
def CUBE_SIZE : ℝ := 4

/-- The 8 local cube vertices of getCachedWorldVertices. -/
def localVertices : List Vec3 :=
  let halfSize := CUBE_SIZE / 2
  [⟨-halfSize, -halfSize, -halfSize⟩, ⟨halfSize, -halfSize, -halfSize⟩,
   ⟨halfSize, halfSize, -halfSize⟩, ⟨-halfSize, halfSize, -halfSize⟩,
   ⟨-halfSize, -halfSize, halfSize⟩, ⟨halfSize, -halfSize, halfSize⟩,
   ⟨halfSize, halfSize, halfSize⟩, ⟨-halfSize, halfSize, halfSize⟩]

/-- The one-slot world-vertex cache of the source's mutable state:
the last cube world matrix and the vertices computed from it. -/
structure CacheState where
  lastCubeMatrixWorld : Mat4
  cachedWorldVertices : Option (List Vec3)

/-- getCachedWorldVertices from the source, with the mutable cache made an
explicit state: recompute when the matrix changed or the cache is empty,
otherwise return the cached vertices unchanged. -/
def getCachedWorldVertices (s : CacheState) (matrixWorld : Mat4) : List Vec3 × CacheState :=
  match s.cachedWorldVertices with
  | some cached =>
    if s.lastCubeMatrixWorld = matrixWorld then (cached, s)
    else
      let ws := localVertices.map (fun v => applyMatrix4 matrixWorld v)
      (ws, ⟨matrixWorld, some ws⟩)
  | none =>
    let ws := localVertices.map (fun v => applyMatrix4 matrixWorld v)
    (ws, ⟨matrixWorld, some ws⟩)

/-- The outputs of one update tick: the 8 projected points and the
vanishing-point results of both projectors. -/
structure ProjectionOutputs where
  linearPoints2D : List (Option Vec2)
  linearVanishingPoints : List (Option Vec2)
  hemiPoints2D : List (Option Vec2)
  hemiVanishingPointPairs : List (Option Vec2 × Option Vec2)

/-- One update tick over both projectors, threading the world-vertex
cache: fetch the world vertices through the cache, then compute every
projected point and vanishing-point result as a pure function of them
(getImagePlaneZ is viewpoint z minus the radius; the three axis directions
are differences of world vertices 1, 3, 4 against vertex 0, as in both
update functions). -/
def runProjections (s : CacheState) (matrixWorld : Mat4) (viewpointPosition : Vec3) (hemisphereRadius : ℝ) : ProjectionOutputs × CacheState :=
  let step := getCachedWorldVertices s matrixWorld
  let worldVertices := step.1
  let currentImagePlaneZ := viewpointPosition.z - hemisphereRadius
  let origin : Vec3 := ⟨0, 0, 0⟩
  let dirX := worldVertices.getD 1 origin - worldVertices.getD 0 origin
  let dirY := worldVertices.getD 3 origin - worldVertices.getD 0 origin
  let dirZ := worldVertices.getD 4 origin - worldVertices.getD 0 origin
  (⟨worldVertices.map (fun v => linearProjectVertex v viewpointPosition currentImagePlaneZ),
    [dirX, dirY, dirZ].map (fun d => linearVanishingPoint d viewpointPosition currentImagePlaneZ),
    worldVertices.map (fun v => hemiProjectVertex v viewpointPosition hemisphereRadius),
    [dirX, dirY, dirZ].map (fun d => hemiVanishingPointPair d hemisphereRadius)⟩,
   step.2)

/-! Helper lemmas about the two-argument arctangent. -/

theorem atan2_abs_le_pi_div_two (y x : ℝ) (hx : 0 ≤ x) : |atan2 y x| ≤ π / 2 := by
  unfold atan2
  rcases hx.lt_or_eq with hlt | heq
  · rw [if_pos hlt]
    exact abs_le.mpr ⟨(Real.neg_pi_div_two_lt_arctan _).le, (Real.arctan_lt_pi_div_two _).le⟩
  · subst heq
    rw [if_neg (lt_irrefl (0 : ℝ)), if_neg (lt_irrefl (0 : ℝ))]
    split_ifs with h1 h2
    · rw [abs_of_pos (by positivity)]
    · rw [abs_neg, abs_of_pos (by positivity)]
    · simpa using (by positivity : (0 : ℝ) < π / 2).le

theorem sqrt_one_add_div_sq (y x : ℝ) (hx : x ≠ 0) :
    Real.sqrt (1 + (y / x) ^ 2) = Real.sqrt (x ^ 2 + y ^ 2) / |x| := by
  have h1 : 1 + (y / x) ^ 2 = (x ^ 2 + y ^ 2) / x ^ 2 := by field_simp
  rw [h1, Real.sqrt_div (by positivity) _, Real.sqrt_sq_eq_abs]

theorem cos_atan2 (y x : ℝ) (h : x ≠ 0 ∨ y ≠ 0) :
    Real.cos (atan2 y x) = x / Real.sqrt (x ^ 2 + y ^ 2) := by
  have hr : 0 < Real.sqrt (x ^ 2 + y ^ 2) := by
    rw [Real.sqrt_pos]
    rcases h with h | h
    · positivity
    · positivity
  unfold atan2
  rcases lt_trichotomy 0 x with hpos | heq | hneg
  · rw [if_pos hpos, Real.cos_arctan, sqrt_one_add_div_sq y x hpos.ne.symm, abs_of_pos hpos,
      one_div_div]
  · subst heq
    rw [if_neg (lt_irrefl (0 : ℝ)), if_neg (lt_irrefl (0 : ℝ))]
    have hy : y ≠ 0 := by
      rcases h with h | h
      · exact absurd rfl h
      · exact h
    rcases hy.lt_or_lt with hylt | hygt
    · rw [if_neg (by linarith), if_pos hylt, Real.cos_neg, Real.cos_pi_div_two, zero_div]
    · rw [if_pos hygt, Real.cos_pi_div_two, zero_div]
  · rw [if_neg (asymm hneg), if_pos hneg]
    have hxne : x ≠ 0 := hneg.ne
    have key : Real.cos (Real.arctan (y / x)) = -x / Real.sqrt (x ^ 2 + y ^ 2) := by
      rw [Real.cos_arctan, sqrt_one_add_div_sq y x hxne, abs_of_neg hneg, one_div_div]
    split_ifs with hy0
    · rw [Real.cos_add_pi, key]
      ring
    · rw [Real.cos_sub_pi, key]
      ring

theorem sin_atan2 (y x : ℝ) (h : x ≠ 0 ∨ y ≠ 0) :
    Real.sin (atan2 y x) = y / Real.sqrt (x ^ 2 + y ^ 2) := by
  have hrpos : 0 < x ^ 2 + y ^ 2 := by
    rcases h with h | h
    · positivity
    · positivity
  have hr : 0 < Real.sqrt (x ^ 2 + y ^ 2) := Real.sqrt_pos.mpr hrpos
  unfold atan2
  rcases lt_trichotomy 0 x with hpos | heq | hneg
  · rw [if_pos hpos, Real.sin_arctan, sqrt_one_add_div_sq y x hpos.ne.symm, abs_of_pos hpos]
    field_simp
  · subst heq
    rw [if_neg (lt_irrefl (0 : ℝ)), if_neg (lt_irrefl (0 : ℝ))]
    have hy : y ≠ 0 := by
      rcases h with h | h
      · exact absurd rfl h
      · exact h
    rcases hy.lt_or_lt with hylt | hygt
    · rw [if_neg (by linarith), if_pos hylt, Real.sin_neg, Real.sin_pi_div_two,
        show (0 : ℝ) ^ 2 + y ^ 2 = y ^ 2 from by ring, Real.sqrt_sq_eq_abs, abs_of_neg hylt,
        div_neg, div_self hylt.ne]
    · rw [if_pos hygt, Real.sin_pi_div_two,
        show (0 : ℝ) ^ 2 + y ^ 2 = y ^ 2 from by ring, Real.sqrt_sq_eq_abs, abs_of_pos hygt,
        div_self hygt.ne.symm]
  · rw [if_neg (asymm hneg), if_pos hneg]
    have hxne : x ≠ 0 := hneg.ne
    have key : Real.sin (Real.arctan (y / x)) = -y / Real.sqrt (x ^ 2 + y ^ 2) := by
      rw [Real.sin_arctan, sqrt_one_add_div_sq y x hxne, abs_of_neg hneg]
      field_simp
      ring
    split_ifs with hy0
    · rw [Real.sin_add_pi, key]
      ring
    · rw [Real.sin_sub_pi, key]
      ring

/-- C2: the Postel projection returns the 2D point
(alpha R cos theta, alpha R sin theta), the pole maps to the origin, and
the 2D distance from the origin is exactly alpha times R. -/
theorem postelProjection_distance_law (point3D hemisphereCenter : Vec3) (hemisphereRadius : ℝ)
    (hR : 0 < hemisphereRadius)
    (hOn : dot3 (point3D - hemisphereCenter) (point3D - hemisphereCenter) = hemisphereRadius ^ 2) :
    postelProjection point3D hemisphereCenter hemisphereRadius =
      ⟨postelAlpha point3D hemisphereCenter hemisphereRadius * hemisphereRadius *
        Real.cos (postelTheta point3D hemisphereCenter),
       postelAlpha point3D hemisphereCenter hemisphereRadius * hemisphereRadius *
        Real.sin (postelTheta point3D hemisphereCenter)⟩ ∧
    postelProjection ⟨hemisphereCenter.x, hemisphereCenter.y, hemisphereCenter.z - hemisphereRadius⟩
      hemisphereCenter hemisphereRadius = ⟨0, 0⟩ ∧
    Real.sqrt ((postelProjection point3D hemisphereCenter hemisphereRadius).x ^ 2 +
        (postelProjection point3D hemisphereCenter hemisphereRadius).y ^ 2) =
      postelAlpha point3D hemisphereCenter hemisphereRadius * hemisphereRadius := by
  refine ⟨rfl, ?_, ?_⟩
  · have h1 : hemisphereCenter.z - hemisphereRadius - hemisphereCenter.z = -hemisphereRadius := by
      ring
    simp only [postelProjection, Vec3.sub_x, Vec3.sub_y, Vec3.sub_z, h1]
    rw [show -(-hemisphereRadius) / hemisphereRadius = 1 from by field_simp,
      min_self, max_eq_right (by norm_num : (-1 : ℝ) ≤ 1), Real.arccos_one, zero_mul, zero_mul,
      zero_mul]
  · set L := postelAlpha point3D hemisphereCenter hemisphereRadius * hemisphereRadius with hL
    have hx1 : (postelProjection point3D hemisphereCenter hemisphereRadius).x =
        L * Real.cos (postelTheta point3D hemisphereCenter) := rfl
    have hy1 : (postelProjection point3D hemisphereCenter hemisphereRadius).y =
        L * Real.sin (postelTheta point3D hemisphereCenter) := rfl
    have hLnn : 0 ≤ L := mul_nonneg (Real.arccos_nonneg _) hR.le
    rw [hx1, hy1, show (L * Real.cos (postelTheta point3D hemisphereCenter)) ^ 2 +
        (L * Real.sin (postelTheta point3D hemisphereCenter)) ^ 2 = L ^ 2 from by
      linear_combination L ^ 2 * Real.sin_sq_add_cos_sq (postelTheta point3D hemisphereCenter),
      Real.sqrt_sq hLnn]

/-- Witness for C2 at the concrete pole point of the unit hemisphere at the
origin. -/
theorem postelProjection_distance_law_witness :
    postelProjection ⟨0, 0, -1⟩ ⟨0, 0, 0⟩ 1 =
      ⟨postelAlpha ⟨0, 0, -1⟩ ⟨0, 0, 0⟩ 1 * 1 * Real.cos (postelTheta ⟨0, 0, -1⟩ ⟨0, 0, 0⟩),
       postelAlpha ⟨0, 0, -1⟩ ⟨0, 0, 0⟩ 1 * 1 * Real.sin (postelTheta ⟨0, 0, -1⟩ ⟨0, 0, 0⟩)⟩ ∧
    postelProjection ⟨0, 0, 0 - 1⟩ ⟨0, 0, 0⟩ 1 = ⟨0, 0⟩ ∧
    Real.sqrt ((postelProjection ⟨0, 0, -1⟩ ⟨0, 0, 0⟩ 1).x ^ 2 +
        (postelProjection ⟨0, 0, -1⟩ ⟨0, 0, 0⟩ 1).y ^ 2) =
      postelAlpha ⟨0, 0, -1⟩ ⟨0, 0, 0⟩ 1 * 1 :=
  postelProjection_distance_law ⟨0, 0, -1⟩ ⟨0, 0, 0⟩ 1 (by norm_num)
    (by simp [dot3])

/-- C4: a vanishing point at distance d is classified boundary-incident
exactly when |d - (pi/2) R| < 0.01 (pi/2) R; in particular distances
(pi/2) R (1 plus-minus 0.005) are degenerate and 0.98 (pi/2) R is not. -/
theorem boundaryIncidence_classification (R d : ℝ) (h1 : 1 ≤ R) (h15 : R ≤ 15) :
    (isBoundaryIncident d ((π / 2) * R) = true ↔ |d - (π / 2) * R| < 0.01 * ((π / 2) * R)) ∧
    isBoundaryIncident ((π / 2) * R * (1 + 0.005)) ((π / 2) * R) = true ∧
    isBoundaryIncident ((π / 2) * R * (1 - 0.005)) ((π / 2) * R) = true ∧
    isBoundaryIncident (0.98 * ((π / 2) * R)) ((π / 2) * R) = false := by
  have hR : 0 < R := lt_of_lt_of_le one_pos h1
  have hb : 0 < (π / 2) * R := by positivity
  refine ⟨?_, ?_, ?_, ?_⟩
  · simp only [isBoundaryIncident, decide_eq_true_eq]
    rw [show (π / 2) * R * 0.01 = 0.01 * ((π / 2) * R) from by ring]
  · simp only [isBoundaryIncident, decide_eq_true_eq]
    rw [show (π / 2) * R * (1 + 0.005) - (π / 2) * R = 0.005 * ((π / 2) * R) from by ring,
      abs_of_pos (by positivity)]
    nlinarith
  · simp only [isBoundaryIncident, decide_eq_true_eq]
    rw [show (π / 2) * R * (1 - 0.005) - (π / 2) * R = -(0.005 * ((π / 2) * R)) from by ring,
      abs_neg, abs_of_pos (by positivity)]
    nlinarith
  · simp only [isBoundaryIncident]
    rw [decide_eq_false_iff_not,
      show 0.98 * ((π / 2) * R) - (π / 2) * R = -(0.02 * ((π / 2) * R)) from by ring,
      abs_neg, abs_of_pos (by positivity)]
    nlinarith

/-- Witness for C4 at the concrete radius R = 1 and distance d = 0. -/
theorem boundaryIncidence_classification_witness :
    (isBoundaryIncident 0 ((π / 2) * 1) = true ↔ |0 - (π / 2) * 1| < 0.01 * ((π / 2) * 1)) ∧
    isBoundaryIncident ((π / 2) * 1 * (1 + 0.005)) ((π / 2) * 1) = true ∧
    isBoundaryIncident ((π / 2) * 1 * (1 - 0.005)) ((π / 2) * 1) = true ∧
    isBoundaryIncident (0.98 * ((π / 2) * 1)) ((π / 2) * 1) = false :=
  boundaryIncidence_classification 1 0 (by norm_num) (by norm_num)

/-- C7: for a vertex off the viewpoint depth, the linear projector returns
scale times the lateral offset from the viewpoint, with
scale = (planeZ - viewpoint.z) / (vertex.z - viewpoint.z); a vertex
laterally aligned with the viewpoint therefore maps to the origin. -/
theorem linearProjectVertex_formula (worldVertex viewpointPosition : Vec3)
    (currentImagePlaneZ : ℝ) (h : worldVertex.z ≠ viewpointPosition.z) :
    linearProjectVertex worldVertex viewpointPosition currentImagePlaneZ =
      some ⟨(currentImagePlaneZ - viewpointPosition.z) / (worldVertex.z - viewpointPosition.z) *
              (worldVertex.x - viewpointPosition.x),
            (currentImagePlaneZ - viewpointPosition.z) / (worldVertex.z - viewpointPosition.z) *
              (worldVertex.y - viewpointPosition.y)⟩ ∧
    (worldVertex.x = viewpointPosition.x → worldVertex.y = viewpointPosition.y →
      linearProjectVertex worldVertex viewpointPosition currentImagePlaneZ = some ⟨0, 0⟩) := by
  have hz : worldVertex.z - viewpointPosition.z ≠ 0 := sub_ne_zero.mpr h
  constructor
  · simp only [linearProjectVertex, if_pos hz, Option.some.injEq, Vec2.mk.injEq]
    constructor
    · field_simp
      ring
    · field_simp
      ring
  · intro hx hy
    simp [linearProjectVertex, if_pos hz, hx, hy]

/-- Witness for C7 at a concrete vertex and viewpoint. -/
theorem linearProjectVertex_formula_witness :
    linearProjectVertex ⟨3, 4, 0⟩ ⟨0, 0, 2⟩ 1 =
      some ⟨(1 - 2) / (0 - 2) * (3 - 0), (1 - 2) / (0 - 2) * (4 - 0)⟩ ∧
    ((3 : ℝ) = 0 → (4 : ℝ) = 0 → linearProjectVertex ⟨3, 4, 0⟩ ⟨0, 0, 2⟩ 1 = some ⟨0, 0⟩) :=
  linearProjectVertex_formula ⟨3, 4, 0⟩ ⟨0, 0, 2⟩ 1 (by norm_num)

/-- C8 counterexample: a direction with nonzero z-component of 0.00005
still yields an undefined vanishing point, because the source's threshold
is 0.0001, not zero. -/
theorem linearVanishingPoint_nonzero_z_counterexample :
    linearVanishingPoint ⟨1, 0, 0.00005⟩ ⟨0, 0, 0⟩ 1 = none ∧ (0.00005 : ℝ) ≠ 0 := by
  constructor
  · rw [linearVanishingPoint, if_neg]
    show ¬(|(0.00005 : ℝ)| > 0.0001)
    rw [abs_of_pos (by norm_num)]
    norm_num
  · norm_num

/-- C8 amended: the linear vanishing point is defined exactly when the
direction's z-component exceeds 0.0001 in absolute value; in particular a
direction with z = 0 yields an undefined vanishing point, for every axis. -/
theorem linearVanishingPoint_defined_iff (dir viewpointPosition : Vec3)
    (currentImagePlaneZ : ℝ) :
    ((∃ p, linearVanishingPoint dir viewpointPosition currentImagePlaneZ = some p) ↔
      |dir.z| > 0.0001) ∧
    (dir.z = 0 → linearVanishingPoint dir viewpointPosition currentImagePlaneZ = none) := by
  constructor
  · constructor
    · rintro ⟨p, hp⟩
      by_contra hlt
      rw [linearVanishingPoint, if_neg hlt] at hp
      exact Option.noConfusion hp
    · intro hgt
      exact ⟨_, by rw [linearVanishingPoint, if_pos hgt]⟩
  · intro hzero
    rw [linearVanishingPoint, if_neg]
    rw [hzero, abs_zero]
    norm_num

/-- Witness for the amended C8: a concrete direction parallel to the image
plane has no finite vanishing point. -/
theorem linearVanishingPoint_defined_iff_witness :
    linearVanishingPoint ⟨1, 1, 0⟩ ⟨0, 0, 0⟩ 1 = none :=
  (linearVanishingPoint_defined_iff ⟨1, 1, 0⟩ ⟨0, 0, 0⟩ 1).2 rfl

/-- C3: whenever findCircle succeeds, createArcWithEndpoints samples the
arc with the parameters of determineArcParameters, whose direction flag is
the boolean negation of the counter-clockwise betweenness test. -/
theorem createArcWithEndpoints_direction_flag (startPoint endPoint middlePoint : Vec2)
    (circleData : CircleData)
    (h : findCircle startPoint middlePoint endPoint = some circleData) :
    createArcWithEndpoints startPoint endPoint middlePoint =
      ArcOut.arc circleData
        (determineArcParameters (getAngle circleData startPoint)
          (getAngle circleData middlePoint) (getAngle circleData endPoint))
        ((List.range 65).map (fun i =>
          sampleArcPoint circleData
            (determineArcParameters (getAngle circleData startPoint)
              (getAngle circleData middlePoint) (getAngle circleData endPoint)) 64 i)) ∧
    (determineArcParameters (getAngle circleData startPoint) (getAngle circleData middlePoint)
        (getAngle circleData endPoint)).counterClockwise =
      !(isMidInCCWArcCheck (getAngle circleData startPoint) (getAngle circleData middlePoint)
        (getAngle circleData endPoint)) := by
  constructor
  · unfold createArcWithEndpoints
    rw [h]
  · rfl

/-- Witness for C3 at three concrete points of the unit circle. -/
theorem createArcWithEndpoints_direction_flag_witness :
    createArcWithEndpoints ⟨1, 0⟩ ⟨0, 1⟩ ⟨-1, 0⟩ =
      ArcOut.arc ⟨0, 0, 1⟩
        (determineArcParameters (getAngle ⟨0, 0, 1⟩ ⟨1, 0⟩)
          (getAngle ⟨0, 0, 1⟩ ⟨-1, 0⟩) (getAngle ⟨0, 0, 1⟩ ⟨0, 1⟩))
        ((List.range 65).map (fun i =>
          sampleArcPoint ⟨0, 0, 1⟩
            (determineArcParameters (getAngle ⟨0, 0, 1⟩ ⟨1, 0⟩)
              (getAngle ⟨0, 0, 1⟩ ⟨-1, 0⟩) (getAngle ⟨0, 0, 1⟩ ⟨0, 1⟩)) 64 i)) ∧
    (determineArcParameters (getAngle ⟨0, 0, 1⟩ ⟨1, 0⟩) (getAngle ⟨0, 0, 1⟩ ⟨-1, 0⟩)
        (getAngle ⟨0, 0, 1⟩ ⟨0, 1⟩)).counterClockwise =
      !(isMidInCCWArcCheck (getAngle ⟨0, 0, 1⟩ ⟨1, 0⟩) (getAngle ⟨0, 0, 1⟩ ⟨-1, 0⟩)
        (getAngle ⟨0, 0, 1⟩ ⟨0, 1⟩)) :=
  createArcWithEndpoints_direction_flag ⟨1, 0⟩ ⟨0, 1⟩ ⟨-1, 0⟩ ⟨0, 0, 1⟩ (by
    rw [findCircle, if_neg]
    · norm_num [Real.sqrt_one]
    · norm_num)

/-- The circumcenter formulas used by findCircle and
computeCircleFromThreePoints yield a point equidistant from all three
input points whenever the denominator is nonzero. -/
theorem circumcenter_equidistant (a1 a2 b1 b2 c1 c2 : ℝ)
    (hD : 2 * (a1 * (b2 - c2) + b1 * (c2 - a2) + c1 * (a2 - b2)) ≠ 0) :
    ((b1 - ((a1 * a1 + a2 * a2) * (b2 - c2) + (b1 * b1 + b2 * b2) * (c2 - a2) +
          (c1 * c1 + c2 * c2) * (a2 - b2)) /
          (2 * (a1 * (b2 - c2) + b1 * (c2 - a2) + c1 * (a2 - b2)))) ^ 2 +
      (b2 - ((a1 * a1 + a2 * a2) * (c1 - b1) + (b1 * b1 + b2 * b2) * (a1 - c1) +
          (c1 * c1 + c2 * c2) * (b1 - a1)) /
          (2 * (a1 * (b2 - c2) + b1 * (c2 - a2) + c1 * (a2 - b2)))) ^ 2 =
      (a1 - ((a1 * a1 + a2 * a2) * (b2 - c2) + (b1 * b1 + b2 * b2) * (c2 - a2) +
          (c1 * c1 + c2 * c2) * (a2 - b2)) /
          (2 * (a1 * (b2 - c2) + b1 * (c2 - a2) + c1 * (a2 - b2)))) ^ 2 +
      (a2 - ((a1 * a1 + a2 * a2) * (c1 - b1) + (b1 * b1 + b2 * b2) * (a1 - c1) +
          (c1 * c1 + c2 * c2) * (b1 - a1)) /
          (2 * (a1 * (b2 - c2) + b1 * (c2 - a2) + c1 * (a2 - b2)))) ^ 2) ∧
    ((c1 - ((a1 * a1 + a2 * a2) * (b2 - c2) + (b1 * b1 + b2 * b2) * (c2 - a2) +
          (c1 * c1 + c2 * c2) * (a2 - b2)) /
          (2 * (a1 * (b2 - c2) + b1 * (c2 - a2) + c1 * (a2 - b2)))) ^ 2 +
      (c2 - ((a1 * a1 + a2 * a2) * (c1 - b1) + (b1 * b1 + b2 * b2) * (a1 - c1) +
          (c1 * c1 + c2 * c2) * (b1 - a1)) /
          (2 * (a1 * (b2 - c2) + b1 * (c2 - a2) + c1 * (a2 - b2)))) ^ 2 =
      (a1 - ((a1 * a1 + a2 * a2) * (b2 - c2) + (b1 * b1 + b2 * b2) * (c2 - a2) +
          (c1 * c1 + c2 * c2) * (a2 - b2)) /
          (2 * (a1 * (b2 - c2) + b1 * (c2 - a2) + c1 * (a2 - b2)))) ^ 2 +
      (a2 - ((a1 * a1 + a2 * a2) * (c1 - b1) + (b1 * b1 + b2 * b2) * (a1 - c1) +
          (c1 * c1 + c2 * c2) * (b1 - a1)) /
          (2 * (a1 * (b2 - c2) + b1 * (c2 - a2) + c1 * (a2 - b2)))) ^ 2) := by
  constructor
  · field_simp
    ring
  · field_simp
    ring

/-- C1 counterexample: a strictly non-collinear triple whose triangle area
falls below the 0.001 tolerance makes computeCircleFromThreePoints return
none, so returning none is not equivalent to exact collinearity. -/
theorem computeCircle_near_collinear_counterexample :
    computeCircleFromThreePoints ⟨0, 0⟩ ⟨1, 0⟩ ⟨2, 1 / 1000⟩ = none ∧
    ¬collinear ⟨0, 0⟩ ⟨1, 0⟩ ⟨2, 1 / 1000⟩ := by
  constructor
  · have habs : |(1 : ℝ) / 1000| = 1 / 1000 := abs_of_pos (by norm_num)
    norm_num [computeCircleFromThreePoints, habs]
  · norm_num [collinear]

/-- C1 amended: each circle constructor returns none exactly when its own
collinearity measure is below its tolerance; exact collinearity always
yields none; and every returned circle passes through all three input
points. -/
theorem circleFromThreePoints_amended (p1 p2 p3 : Vec2) :
    (findCircle p1 p2 p3 = none ↔
      |2 * (p1.x * (p2.y - p3.y) + p2.x * (p3.y - p1.y) + p3.x * (p1.y - p2.y))| < 1e-8) ∧
    (computeCircleFromThreePoints p1 p2 p3 = none ↔
      |(p2.x - p1.x) * (p3.y - p1.y) - (p3.x - p1.x) * (p2.y - p1.y)| / 2 < 0.001) ∧
    (collinear p1 p2 p3 →
      findCircle p1 p2 p3 = none ∧ computeCircleFromThreePoints p1 p2 p3 = none) ∧
    (∀ c, findCircle p1 p2 p3 = some c →
      (p1.x - c.x) ^ 2 + (p1.y - c.y) ^ 2 = c.radius ^ 2 ∧
      (p2.x - c.x) ^ 2 + (p2.y - c.y) ^ 2 = c.radius ^ 2 ∧
      (p3.x - c.x) ^ 2 + (p3.y - c.y) ^ 2 = c.radius ^ 2) ∧
    (∀ c, computeCircleFromThreePoints p1 p2 p3 = some c →
      (p1.x - c.center.x) ^ 2 + (p1.y - c.center.y) ^ 2 = c.radius ^ 2 ∧
      (p2.x - c.center.x) ^ 2 + (p2.y - c.center.y) ^ 2 = c.radius ^ 2 ∧
      (p3.x - c.center.x) ^ 2 + (p3.y - c.center.y) ^ 2 = c.radius ^ 2) := by
  have hfind : findCircle p1 p2 p3 = none ↔
      |2 * (p1.x * (p2.y - p3.y) + p2.x * (p3.y - p1.y) + p3.x * (p1.y - p2.y))| < 1e-8 := by
    simp only [findCircle]
    split_ifs with hD
    · simp [hD]
    · simp [hD]
  have hcomp : computeCircleFromThreePoints p1 p2 p3 = none ↔
      |(p2.x - p1.x) * (p3.y - p1.y) - (p3.x - p1.x) * (p2.y - p1.y)| / 2 < 0.001 := by
    simp only [computeCircleFromThreePoints]
    split_ifs with hA
    · simp [hA]
    · simp [hA]
  refine ⟨hfind, hcomp, ?_, ?_, ?_⟩
  · intro hcol
    unfold collinear at hcol
    have hD : 2 * (p1.x * (p2.y - p3.y) + p2.x * (p3.y - p1.y) + p3.x * (p1.y - p2.y)) = 0 := by
      linear_combination 2 * hcol
    refine ⟨hfind.mpr ?_, hcomp.mpr ?_⟩
    · rw [hD, abs_zero]
      norm_num
    · rw [hcol, abs_zero]
      norm_num
  · intro c hc
    simp only [findCircle] at hc
    split_ifs at hc with hD
    have hDne :
        2 * (p1.x * (p2.y - p3.y) + p2.x * (p3.y - p1.y) + p3.x * (p1.y - p2.y)) ≠ 0 := by
      intro h0
      exact hD (by rw [h0, abs_zero]; norm_num)
    injection hc with hc
    subst hc
    have heq := circumcenter_equidistant p1.x p1.y p2.x p2.y p3.x p3.y hDne
    refine ⟨?_, ?_, ?_⟩
    · exact (Real.sq_sqrt (by positivity)).symm
    · rw [Real.sq_sqrt (by positivity)]
      exact heq.1
    · rw [Real.sq_sqrt (by positivity)]
      exact heq.2
  · intro c hc
    simp only [computeCircleFromThreePoints] at hc
    split_ifs at hc with hA
    have hcross : (p2.x - p1.x) * (p3.y - p1.y) - (p3.x - p1.x) * (p2.y - p1.y) ≠ 0 := by
      intro h0
      exact hA (by rw [h0, abs_zero]; norm_num)
    have hDne :
        2 * (p1.x * (p2.y - p3.y) + p2.x * (p3.y - p1.y) + p3.x * (p1.y - p2.y)) ≠ 0 := by
      intro h0
      exact hcross (by linear_combination h0 / 2)
    injection hc with hc
    subst hc
    have heq := circumcenter_equidistant p1.x p1.y p2.x p2.y p3.x p3.y hDne
    refine ⟨?_, ?_, ?_⟩
    · exact (Real.sq_sqrt (by positivity)).symm
    · rw [Real.sq_sqrt (by positivity)]
      exact heq.1
    · rw [Real.sq_sqrt (by positivity)]
      exact heq.2

/-- Witness for the amended C1: the circle found through three concrete
points of the unit circle passes through all of them. -/
theorem circleFromThreePoints_amended_witness :
    ((1 : ℝ) - 0) ^ 2 + ((0 : ℝ) - 0) ^ 2 = (1 : ℝ) ^ 2 ∧
    ((-1 : ℝ) - 0) ^ 2 + ((0 : ℝ) - 0) ^ 2 = (1 : ℝ) ^ 2 ∧
    ((0 : ℝ) - 0) ^ 2 + ((1 : ℝ) - 0) ^ 2 = (1 : ℝ) ^ 2 :=
  (circleFromThreePoints_amended ⟨1, 0⟩ ⟨-1, 0⟩ ⟨0, 1⟩).2.2.2.1 ⟨0, 0, 1⟩ (by
    rw [findCircle, if_neg]
    · norm_num [Real.sqrt_one]
    · norm_num)

/-- A nonzero vector has positive self-dot-product. -/
theorem dot3_self_pos (v : Vec3) (h : v ≠ ⟨0, 0, 0⟩) : 0 < dot3 v v := by
  obtain ⟨a, b, c⟩ := v
  simp only [dot3]
  by_contra hle
  push_neg at hle
  have ha : a * a = 0 :=
    le_antisymm (by nlinarith [mul_self_nonneg b, mul_self_nonneg c]) (mul_self_nonneg a)
  have hb : b * b = 0 :=
    le_antisymm (by nlinarith [mul_self_nonneg a, mul_self_nonneg c]) (mul_self_nonneg b)
  have hc : c * c = 0 :=
    le_antisymm (by nlinarith [mul_self_nonneg a, mul_self_nonneg b]) (mul_self_nonneg c)
  exact h (by rw [mul_self_eq_zero.mp ha, mul_self_eq_zero.mp hb, mul_self_eq_zero.mp hc])

/-- Either closed-form quadratic root satisfies the quadratic equation. -/
theorem quad_root_eval (a b c t s : ℝ) (ha : a ≠ 0) (hs : s ^ 2 = b * b - 4 * a * c)
    (ht : 2 * a * t = -b - s ∨ 2 * a * t = -b + s) : a * t ^ 2 + b * t + c = 0 := by
  have key : 4 * a * (a * t ^ 2 + b * t + c) = (2 * a * t + b) ^ 2 - (b * b - 4 * a * c) := by
    ring
  have hzero : (2 * a * t + b) ^ 2 - (b * b - 4 * a * c) = 0 := by
    rcases ht with ht | ht
    · rw [show 2 * a * t + b = -s from by linarith, neg_sq, hs]
      ring
    · rw [show 2 * a * t + b = s from by linarith, hs]
      ring
  have h4 : 4 * a * (a * t ^ 2 + b * t + c) = 0 := by rw [key, hzero]
  rcases mul_eq_zero.mp h4 with h | h
  · exact absurd (by linarith : a = 0) ha
  · exact h

/-- A ray point whose parameter satisfies the sphere quadratic lies on the
sphere. -/
theorem on_sphere_of_root (rayOrigin rayDirection hemisphereCenter : Vec3)
    (hemisphereRadius t : ℝ)
    (h : rayQuadA rayDirection * t ^ 2 + rayQuadB rayOrigin rayDirection hemisphereCenter * t +
      rayQuadC rayOrigin hemisphereCenter hemisphereRadius = 0) :
    dot3 (rayOrigin + t • rayDirection - hemisphereCenter)
      (rayOrigin + t • rayDirection - hemisphereCenter) =
      hemisphereRadius * hemisphereRadius := by
  simp only [rayQuadA, rayQuadB, rayQuadC, dot3, Vec3.add_x, Vec3.add_y, Vec3.add_z, Vec3.sub_x,
    Vec3.sub_y, Vec3.sub_z, Vec3.smul_x, Vec3.smul_y, Vec3.smul_z] at h ⊢
  linear_combination h

/-- C6: the ray/sphere intersection returns none when the discriminant is
negative or no root exceeds 0.001; otherwise it returns the ray point of
the smallest root above 0.001, and every root's ray point lies on the
sphere. -/
theorem intersectRayWithHemisphere_cases (rayOrigin rayDirection hemisphereCenter : Vec3)
    (hemisphereRadius : ℝ) (hdir : rayDirection ≠ ⟨0, 0, 0⟩) :
    (rayDiscriminant rayOrigin rayDirection hemisphereCenter hemisphereRadius < 0 →
      intersectRayWithHemisphere rayOrigin rayDirection hemisphereCenter hemisphereRadius =
        none) ∧
    rayT1 rayOrigin rayDirection hemisphereCenter hemisphereRadius ≤
      rayT2 rayOrigin rayDirection hemisphereCenter hemisphereRadius ∧
    (0 ≤ rayDiscriminant rayOrigin rayDirection hemisphereCenter hemisphereRadius →
      (rayT1 rayOrigin rayDirection hemisphereCenter hemisphereRadius ≤ 0.001 →
        rayT2 rayOrigin rayDirection hemisphereCenter hemisphereRadius ≤ 0.001 →
        intersectRayWithHemisphere rayOrigin rayDirection hemisphereCenter hemisphereRadius =
          none) ∧
      (0.001 < rayT1 rayOrigin rayDirection hemisphereCenter hemisphereRadius →
        intersectRayWithHemisphere rayOrigin rayDirection hemisphereCenter hemisphereRadius =
          some (rayOrigin +
            rayT1 rayOrigin rayDirection hemisphereCenter hemisphereRadius • rayDirection)) ∧
      (rayT1 rayOrigin rayDirection hemisphereCenter hemisphereRadius ≤ 0.001 →
        0.001 < rayT2 rayOrigin rayDirection hemisphereCenter hemisphereRadius →
        intersectRayWithHemisphere rayOrigin rayDirection hemisphereCenter hemisphereRadius =
          some (rayOrigin +
            rayT2 rayOrigin rayDirection hemisphereCenter hemisphereRadius • rayDirection)) ∧
      (∀ t, (t = rayT1 rayOrigin rayDirection hemisphereCenter hemisphereRadius ∨
          t = rayT2 rayOrigin rayDirection hemisphereCenter hemisphereRadius) →
        dot3 (rayOrigin + t • rayDirection - hemisphereCenter)
          (rayOrigin + t • rayDirection - hemisphereCenter) =
          hemisphereRadius * hemisphereRadius)) := by
  have ha : 0 < rayQuadA rayDirection := dot3_self_pos rayDirection hdir
  have hsnn : 0 ≤ Real.sqrt (rayDiscriminant rayOrigin rayDirection hemisphereCenter
    hemisphereRadius) := Real.sqrt_nonneg _
  have ht12 : rayT1 rayOrigin rayDirection hemisphereCenter hemisphereRadius ≤
      rayT2 rayOrigin rayDirection hemisphereCenter hemisphereRadius := by
    rw [rayT1, rayT2]
    exact (div_le_div_iff_of_pos_right (by positivity)).mpr (by linarith)
  refine ⟨?_, ht12, ?_⟩
  · intro hlt
    rw [intersectRayWithHemisphere, if_pos hlt]
  · intro hd
    have hqr : ∀ t, (t = rayT1 rayOrigin rayDirection hemisphereCenter hemisphereRadius ∨
        t = rayT2 rayOrigin rayDirection hemisphereCenter hemisphereRadius) →
        rayQuadA rayDirection * t ^ 2 +
          rayQuadB rayOrigin rayDirection hemisphereCenter * t +
          rayQuadC rayOrigin hemisphereCenter hemisphereRadius = 0 := by
      intro t ht
      apply quad_root_eval _ _ _ t
        (Real.sqrt (rayDiscriminant rayOrigin rayDirection hemisphereCenter hemisphereRadius))
        (ne_of_gt ha)
      · rw [Real.sq_sqrt hd, rayDiscriminant]
      · rcases ht with rfl | rfl
        · left
          rw [rayT1]
          field_simp
        · right
          rw [rayT2]
          field_simp
    refine ⟨?_, ?_, ?_, fun t ht => on_sphere_of_root _ _ _ _ _ (hqr t ht)⟩
    · intro h1 h2
      simp only [intersectRayWithHemisphere]
      rw [if_neg (not_lt.mpr hd), if_neg (not_lt.mpr h1), if_neg (not_lt.mpr h2)]
      rfl
    · intro h1
      have h2 : (0.001 : ℝ) < rayT2 rayOrigin rayDirection hemisphereCenter hemisphereRadius :=
        lt_of_lt_of_le h1 ht12
      simp only [intersectRayWithHemisphere]
      rw [if_neg (not_lt.mpr hd), if_pos h1, if_pos h2]
      simp only [List.cons_append, List.nil_append, List.foldl_cons, List.foldl_nil,
        min_eq_left ht12]
    · intro h1 h2
      simp only [intersectRayWithHemisphere]
      rw [if_neg (not_lt.mpr hd), if_neg (not_lt.mpr h1), if_pos h2]
      simp only [List.nil_append, List.foldl_nil]

/-- Witness for C6: the downward ray from the center of the unit sphere
hits it at the far root t2 = 1. -/
theorem intersectRayWithHemisphere_cases_witness :
    intersectRayWithHemisphere ⟨0, 0, 0⟩ ⟨0, 0, -1⟩ ⟨0, 0, 0⟩ 1 =
      some ((⟨0, 0, 0⟩ : Vec3) + rayT2 ⟨0, 0, 0⟩ ⟨0, 0, -1⟩ ⟨0, 0, 0⟩ 1 • (⟨0, 0, -1⟩ : Vec3)) := by
  have hdisc : rayDiscriminant ⟨0, 0, 0⟩ ⟨0, 0, -1⟩ ⟨0, 0, 0⟩ 1 = 4 := by
    norm_num [rayDiscriminant, rayQuadA, rayQuadB, rayQuadC, dot3]
  have hs4 : Real.sqrt 4 = 2 := by
    rw [show (4 : ℝ) = 2 ^ 2 from by norm_num, Real.sqrt_sq (by norm_num)]
  have ht1 : rayT1 ⟨0, 0, 0⟩ ⟨0, 0, -1⟩ ⟨0, 0, 0⟩ 1 = -1 := by
    norm_num [rayT1, rayQuadA, rayQuadB, rayQuadC, dot3, hdisc, hs4]
  have ht2 : rayT2 ⟨0, 0, 0⟩ ⟨0, 0, -1⟩ ⟨0, 0, 0⟩ 1 = 1 := by
    norm_num [rayT2, rayQuadA, rayQuadB, rayQuadC, dot3, hdisc, hs4]
  exact ((intersectRayWithHemisphere_cases ⟨0, 0, 0⟩ ⟨0, 0, -1⟩ ⟨0, 0, 0⟩ 1
      (by norm_num [Vec3.mk.injEq])).2.2 (by rw [hdisc]; norm_num)).2.2.1
    (by rw [ht1]; norm_num) (by rw [ht2]; norm_num)

/-- C5 amended: the outside vanishing point is computed exactly when the
inside point is farther than 0.001 from the center (for distances in
(0, 0.001] the source skips it); when computed, it lies at distance
boundaryRadius^2 / insideDistance, satisfies the inversion product
insideDistance * outsideDistance = boundaryRadius^2, and is antipodal: a
negative scalar multiple of the inside point. -/
theorem computeOutsideVP_inversion (insideVP : Vec2) (hemisphereRadius : ℝ)
    (hR : 0 < hemisphereRadius) :
    (Real.sqrt (insideVP.x * insideVP.x + insideVP.y * insideVP.y) ≤ 0.001 →
      computeOutsideVP insideVP ((π / 2) * hemisphereRadius) = none) ∧
    (Real.sqrt (insideVP.x * insideVP.x + insideVP.y * insideVP.y) > 0.001 →
    ∃ ovp, computeOutsideVP insideVP ((π / 2) * hemisphereRadius) = some ovp ∧
      Real.sqrt (ovp.x * ovp.x + ovp.y * ovp.y) =
        (π / 2) * hemisphereRadius * ((π / 2) * hemisphereRadius) /
          Real.sqrt (insideVP.x * insideVP.x + insideVP.y * insideVP.y) ∧
      Real.sqrt (insideVP.x * insideVP.x + insideVP.y * insideVP.y) *
          Real.sqrt (ovp.x * ovp.x + ovp.y * ovp.y) =
        (π / 2) * hemisphereRadius * ((π / 2) * hemisphereRadius) ∧
      ovp.x = -((π / 2) * hemisphereRadius * ((π / 2) * hemisphereRadius) /
          (insideVP.x * insideVP.x + insideVP.y * insideVP.y)) * insideVP.x ∧
      ovp.y = -((π / 2) * hemisphereRadius * ((π / 2) * hemisphereRadius) /
          (insideVP.x * insideVP.x + insideVP.y * insideVP.y)) * insideVP.y) := by
  constructor
  · intro hle
    simp only [computeOutsideVP]
    rw [if_neg (not_lt.mpr hle)]
  intro hdist
  obtain ⟨x, y⟩ := insideVP
  simp only at hdist ⊢
  have hq : 0 < x * x + y * y := by
    by_contra hle
    push_neg at hle
    rw [Real.sqrt_eq_zero'.mpr hle] at hdist
    norm_num at hdist
  have hne : x ≠ 0 ∨ y ≠ 0 := by
    by_contra hno
    push_neg at hno
    obtain ⟨hx0, hy0⟩ := hno
    rw [hx0, hy0] at hq
    norm_num at hq
  set iD := Real.sqrt (x * x + y * y) with hiDdef
  have hiD : 0 < iD := Real.sqrt_pos.mpr hq
  have hiD2 : iD * iD = x * x + y * y := Real.mul_self_sqrt hq.le
  set bR := (π / 2) * hemisphereRadius with hbRdef
  have hbR : 0 < bR := by positivity
  have hoD : 0 < bR * bR / iD := by positivity
  have hcos : Real.cos (atan2 y x + π) = -(x / iD) := by
    rw [Real.cos_add_pi, cos_atan2 y x hne, show x ^ 2 + y ^ 2 = x * x + y * y from by ring]
  have hsin : Real.sin (atan2 y x + π) = -(y / iD) := by
    rw [Real.sin_add_pi, sin_atan2 y x hne, show x ^ 2 + y ^ 2 = x * x + y * y from by ring]
  have hform : computeOutsideVP ⟨x, y⟩ bR =
      some ⟨bR * bR / iD * Real.cos (atan2 y x + π), bR * bR / iD * Real.sin (atan2 y x + π)⟩ := by
    simp only [computeOutsideVP]
    rw [if_pos hdist]
  refine ⟨_, hform, ?_, ?_, ?_, ?_⟩
  · show Real.sqrt (bR * bR / iD * Real.cos (atan2 y x + π) *
        (bR * bR / iD * Real.cos (atan2 y x + π)) +
      bR * bR / iD * Real.sin (atan2 y x + π) *
        (bR * bR / iD * Real.sin (atan2 y x + π))) = bR * bR / iD
    rw [hcos, hsin]
    have hsum : bR * bR / iD * -(x / iD) * (bR * bR / iD * -(x / iD)) +
        bR * bR / iD * -(y / iD) * (bR * bR / iD * -(y / iD)) =
        bR * bR / iD * (bR * bR / iD) := by
      have h1 : bR * bR / iD * -(x / iD) * (bR * bR / iD * -(x / iD)) +
          bR * bR / iD * -(y / iD) * (bR * bR / iD * -(y / iD)) =
          bR * bR / iD * (bR * bR / iD) * ((x * x + y * y) / (iD * iD)) := by
        ring
      rw [h1, hiD2, div_self (by positivity), mul_one]
    rw [hsum, Real.sqrt_mul_self hoD.le]
  · show iD * Real.sqrt (bR * bR / iD * Real.cos (atan2 y x + π) *
        (bR * bR / iD * Real.cos (atan2 y x + π)) +
      bR * bR / iD * Real.sin (atan2 y x + π) *
        (bR * bR / iD * Real.sin (atan2 y x + π))) = bR * bR
    rw [hcos, hsin]
    have hsum : bR * bR / iD * -(x / iD) * (bR * bR / iD * -(x / iD)) +
        bR * bR / iD * -(y / iD) * (bR * bR / iD * -(y / iD)) =
        bR * bR / iD * (bR * bR / iD) := by
      have h1 : bR * bR / iD * -(x / iD) * (bR * bR / iD * -(x / iD)) +
          bR * bR / iD * -(y / iD) * (bR * bR / iD * -(y / iD)) =
          bR * bR / iD * (bR * bR / iD) * ((x * x + y * y) / (iD * iD)) := by
        ring
      rw [h1, hiD2, div_self (by positivity), mul_one]
    rw [hsum, Real.sqrt_mul_self hoD.le]
    field_simp
  · show bR * bR / iD * Real.cos (atan2 y x + π) =
      -(bR * bR / (x * x + y * y)) * x
    rw [hcos, ← hiD2]
    field_simp
  · show bR * bR / iD * Real.sin (atan2 y x + π) =
      -(bR * bR / (x * x + y * y)) * y
    rw [hsin, ← hiD2]
    field_simp

/-- C5 counterexample: an inside vanishing point at the strictly positive
distance 1/2000 from the center, inside the source's 0.001 guard, gets no
outside vanishing point at all, refuting the claim's insideDistance > 0
side condition. -/
theorem computeOutsideVP_small_distance_counterexample :
    computeOutsideVP ⟨1 / 2000, 0⟩ ((π / 2) * 1) = none ∧
    (0 : ℝ) < Real.sqrt ((1 / 2000 : ℝ) * (1 / 2000) + 0 * 0) := by
  have hs : Real.sqrt ((1 / 2000 : ℝ) * (1 / 2000) + 0 * 0) = 1 / 2000 := by
    rw [show ((1 / 2000 : ℝ) * (1 / 2000) + 0 * 0) = (1 / 2000) ^ 2 from by ring,
      Real.sqrt_sq (by norm_num)]
  constructor
  · simp only [computeOutsideVP]
    rw [if_neg]
    show ¬(Real.sqrt ((1 / 2000 : ℝ) * (1 / 2000) + 0 * 0) > 0.001)
    rw [hs]
    norm_num
  · rw [hs]
    norm_num

/-- Witness for the amended C5 at the concrete inside point (1,0) and
radius 1. -/
theorem computeOutsideVP_inversion_witness :
    ∃ ovp, computeOutsideVP ⟨1, 0⟩ ((π / 2) * 1) = some ovp ∧
      Real.sqrt (ovp.x * ovp.x + ovp.y * ovp.y) =
        (π / 2) * 1 * ((π / 2) * 1) / Real.sqrt ((1 : ℝ) * 1 + 0 * 0) ∧
      Real.sqrt ((1 : ℝ) * 1 + 0 * 0) * Real.sqrt (ovp.x * ovp.x + ovp.y * ovp.y) =
        (π / 2) * 1 * ((π / 2) * 1) ∧
      ovp.x = -((π / 2) * 1 * ((π / 2) * 1) / ((1 : ℝ) * 1 + 0 * 0)) * 1 ∧
      ovp.y = -((π / 2) * 1 * ((π / 2) * 1) / ((1 : ℝ) * 1 + 0 * 0)) * 0 :=
  (computeOutsideVP_inversion ⟨1, 0⟩ 1 (by norm_num)).2 (by norm_num [Real.sqrt_one])

/-- A second cache fetch with the same matrix returns the same vertices
and leaves the cache unchanged. -/
theorem getCachedWorldVertices_stable (s : CacheState) (m : Mat4) :
    getCachedWorldVertices (getCachedWorldVertices s m).2 m = getCachedWorldVertices s m := by
  rcases s with ⟨last, cache⟩
  rcases cache with _ | vs
  · simp [getCachedWorldVertices]
  · by_cases hm : last = m
    · simp [getCachedWorldVertices, hm]
    · simp [getCachedWorldVertices, hm]

/-- C9: running both projections twice in succession on the same input
tuple produces identical outputs, whatever the starting state of the
one-slot world-vertex cache. -/
theorem runProjections_pure (s : CacheState) (matrixWorld : Mat4) (viewpointPosition : Vec3)
    (hemisphereRadius : ℝ) :
    (runProjections ((runProjections s matrixWorld viewpointPosition hemisphereRadius).2)
        matrixWorld viewpointPosition hemisphereRadius).1 =
      (runProjections s matrixWorld viewpointPosition hemisphereRadius).1 := by
  have hstable := getCachedWorldVertices_stable s matrixWorld
  simp only [runProjections]
  rw [hstable]

/-- The selection loop only ever produces candidates within the boundary
radius, given that the accumulator already satisfies that invariant. -/
theorem selectStep_foldl_bounded (boundaryRadius : ℝ) (hbR : 0 ≤ boundaryRadius)
    (l : List Vec2) :
    ∀ acc : Option (Vec2 × ℝ),
      (∀ pr, acc = some pr →
        pr.1.x * pr.1.x + pr.1.y * pr.1.y ≤ boundaryRadius * boundaryRadius) →
      ∀ pr, l.foldl (selectStep boundaryRadius) acc = some pr →
        pr.1.x * pr.1.x + pr.1.y * pr.1.y ≤ boundaryRadius * boundaryRadius := by
  induction l with
  | nil =>
    intro acc hacc pr hpr
    exact hacc pr (by simpa using hpr)
  | cons p rest ih =>
    intro acc hacc pr hpr
    refine ih (selectStep boundaryRadius acc p) ?_ pr (by simpa using hpr)
    intro pr' hpr'
    have hsq : 0 ≤ p.x * p.x + p.y * p.y :=
      add_nonneg (mul_self_nonneg _) (mul_self_nonneg _)
    rcases acc with _ | ⟨b, minD⟩
    · simp only [selectStep] at hpr'
      split_ifs at hpr' with hcond
      injection hpr' with hpr'
      subst hpr'
      have hmul := mul_self_le_mul_self (Real.sqrt_nonneg (p.x * p.x + p.y * p.y)) hcond
      rwa [Real.mul_self_sqrt hsq] at hmul
    · simp only [selectStep] at hpr'
      split_ifs at hpr' with hcond
      · injection hpr' with hpr'
        subst hpr'
        have hmul := mul_self_le_mul_self (Real.sqrt_nonneg (p.x * p.x + p.y * p.y)) hcond.1
        rwa [Real.mul_self_sqrt hsq] at hmul
      · injection hpr' with hpr'
        subst hpr'
        exact hacc (b, minD) rfl

/-- selectCorrectIntersection on a two-candidate list returns none or a
point within the boundary radius. -/
theorem selectCorrectIntersection_pair (q1 q2 : Vec2) (boundaryRadius : ℝ)
    (hbR : 0 ≤ boundaryRadius) :
    ∀ p, selectCorrectIntersection [q1, q2] boundaryRadius = some p →
      p.x * p.x + p.y * p.y ≤ boundaryRadius * boundaryRadius := by
  intro p hp
  simp only [selectCorrectIntersection, Option.map_eq_some'] at hp
  obtain ⟨pr, hpr, hfst⟩ := hp
  have hb := selectStep_foldl_bounded boundaryRadius hbR [q1, q2] none
    (fun pr' h => Option.noConfusion h) pr hpr
  rw [← hfst]
  exact hb

/-- intersectCircles returns the empty list or exactly two points. -/
theorem intersectCircles_cases (c1 : Vec2) (r1 : ℝ) (c2 : Vec2) (r2 : ℝ) :
    intersectCircles c1 r1 c2 r2 = [] ∨
    ∃ q1 q2, intersectCircles c1 r1 c2 r2 = [q1, q2] := by
  simp only [intersectCircles]
  split_ifs with h
  · exact Or.inl rfl
  · exact Or.inr ⟨_, _, rfl⟩

/-- intersectCircleLine returns the empty list or exactly two points. -/
theorem intersectCircleLine_cases (radius : ℝ) (p q : Vec2) :
    intersectCircleLine radius p q = [] ∨
    ∃ q1 q2, intersectCircleLine radius p q = [q1, q2] := by
  simp only [intersectCircleLine]
  split_ifs with h
  · exact Or.inl rfl
  · exact Or.inr ⟨_, _, rfl⟩

/-- A successful segment intersection lies on the first segment. -/
theorem intersectLines_segment (p q r s pt : Vec2)
    (h : intersectLines p q r s = some pt) :
    ∃ t, 0 ≤ t ∧ t ≤ 1 ∧ pt = ⟨p.x + t * (q.x - p.x), p.y + t * (q.y - p.y)⟩ := by
  simp only [intersectLines] at h
  split_ifs at h with h1 h2
  obtain ⟨ht0, ht1, _, _⟩ := h2
  injection h with h
  exact ⟨_, ht0, ht1, h.symm⟩

/-- Convexity of the squared norm along a segment: a point between two
points inside a disc stays inside the disc. -/
theorem segment_norm_sq_le (px py qx qy t M : ℝ) (ht0 : 0 ≤ t) (ht1 : t ≤ 1)
    (hp : px * px + py * py ≤ M * M) (hq : qx * qx + qy * qy ≤ M * M) :
    (px + t * (qx - px)) * (px + t * (qx - px)) +
      (py + t * (qy - py)) * (py + t * (qy - py)) ≤ M * M := by
  nlinarith [mul_nonneg (mul_nonneg ht0 (sub_nonneg.mpr ht1))
      (add_nonneg (mul_self_nonneg (px - qx)) (mul_self_nonneg (py - qy))),
    mul_nonneg (sub_nonneg.mpr ht1) (sub_nonneg.mpr hp),
    mul_nonneg ht0 (sub_nonneg.mpr hq)]

/-- Scaling an angle of magnitude at most pi/2 by the radius keeps the
squared length within the squared boundary radius. -/
theorem scaled_angle_sq_le (R θ : ℝ) (hR : 0 < R) (hθ : |θ| ≤ π / 2) :
    (R * θ) * (R * θ) ≤ ((π / 2) * R) * ((π / 2) * R) := by
  have habs := abs_le.mp hθ
  have h1 : θ * θ ≤ (π / 2) * (π / 2) := by nlinarith [habs.1, habs.2]
  calc (R * θ) * (R * θ) = (R * R) * (θ * θ) := by ring
    _ ≤ (R * R) * ((π / 2) * (π / 2)) :=
      mul_le_mul_of_nonneg_left h1 (by positivity)
    _ = ((π / 2) * R) * ((π / 2) * R) := by ring

/-- The elevation angle of updateHemisphericalProjection always lies in
[-pi/2, pi/2], because the second atan2 argument is an absolute value. -/
theorem hemiTheta_abs_le (direction : Vec3) : |hemiTheta direction| ≤ π / 2 :=
  atan2_abs_le_pi_div_two _ _ (abs_nonneg _)

/-- The lateral angle of updateHemisphericalProjection always lies in
[-pi/2, pi/2]. -/
theorem hemiPhi_abs_le (direction : Vec3) : |hemiPhi direction| ≤ π / 2 :=
  atan2_abs_le_pi_div_two _ _ (abs_nonneg _)

/-- Every point produced by the shared hemispherical projection block from
angles within [-pi/2, pi/2] lies on or inside the boundary circle. -/
theorem hemiProjectDirection_in_boundary (theta phi hemisphereRadius : ℝ)
    (hR : 0 < hemisphereRadius) (hθ : |theta| ≤ π / 2) (hφ : |phi| ≤ π / 2) :
    ∀ p, hemiProjectDirection theta phi hemisphereRadius = some p →
      p.x * p.x + p.y * p.y ≤
        ((π / 2) * hemisphereRadius) * ((π / 2) * hemisphereRadius) := by
  intro p hp
  have hbR : 0 ≤ (π / 2) * hemisphereRadius := by positivity
  simp only [hemiProjectDirection] at hp
  split_ifs at hp with h00 h0t h0p
  · injection hp with hp
    rw [← hp]
    simpa using mul_self_nonneg ((π / 2) * hemisphereRadius)
  · injection hp with hp
    rw [← hp]
    simpa using scaled_angle_sq_le hemisphereRadius phi hR hφ
  · injection hp with hp
    rw [← hp]
    simpa using scaled_angle_sq_le hemisphereRadius theta hR hθ
  · rcases h1 : computeCircleFromThreePoints ⟨0, hemisphereRadius * theta⟩
        ⟨(π / 2) * hemisphereRadius, 0⟩ ⟨-((π / 2) * hemisphereRadius), 0⟩ with _ | c1 <;>
      rcases h2 : computeCircleFromThreePoints ⟨hemisphereRadius * phi, 0⟩
        ⟨0, (π / 2) * hemisphereRadius⟩ ⟨0, -((π / 2) * hemisphereRadius)⟩ with _ | c2 <;>
      rw [h1, h2] at hp <;>
      simp only [intersectArcsOrLines] at hp
    · rcases h3 : intersectLines ⟨0, hemisphereRadius * theta⟩
          ⟨-((π / 2) * hemisphereRadius), 0⟩ ⟨hemisphereRadius * phi, 0⟩
          ⟨0, -((π / 2) * hemisphereRadius)⟩ with _ | pt <;> rw [h3] at hp
      · exact Option.noConfusion hp
      · have hpt : pt = p := by
          have hsingle : selectCorrectIntersection [pt] ((π / 2) * hemisphereRadius) =
              some pt := rfl
          rw [hsingle] at hp
          injection hp
        obtain ⟨t, ht0, ht1, hform⟩ := intersectLines_segment _ _ _ _ _ h3
        rw [← hpt, hform]
        have hpbound : (0 : ℝ) * 0 +
            (hemisphereRadius * theta) * (hemisphereRadius * theta) ≤
            ((π / 2) * hemisphereRadius) * ((π / 2) * hemisphereRadius) := by
          simpa using scaled_angle_sq_le hemisphereRadius theta hR hθ
        have hqbound : (-((π / 2) * hemisphereRadius)) * (-((π / 2) * hemisphereRadius)) +
            (0 : ℝ) * 0 ≤ ((π / 2) * hemisphereRadius) * ((π / 2) * hemisphereRadius) :=
          le_of_eq (by ring)
        exact segment_norm_sq_le 0 (hemisphereRadius * theta)
          (-((π / 2) * hemisphereRadius)) 0 t ((π / 2) * hemisphereRadius) ht0 ht1
          hpbound hqbound
    · rcases intersectCircleLine_cases c2.radius ⟨0, hemisphereRadius * theta⟩
          ⟨-((π / 2) * hemisphereRadius), 0⟩ with hc | ⟨q1, q2, hc⟩ <;> rw [hc] at hp
      · exact Option.noConfusion hp
      · exact selectCorrectIntersection_pair q1 q2 _ hbR p hp
    · rcases intersectCircleLine_cases c1.radius ⟨hemisphereRadius * phi, 0⟩
          ⟨0, -((π / 2) * hemisphereRadius)⟩ with hc | ⟨q1, q2, hc⟩ <;> rw [hc] at hp
      · exact Option.noConfusion hp
      · exact selectCorrectIntersection_pair q1 q2 _ hbR p hp
    · rcases intersectCircles_cases c1.center c1.radius c2.center c2.radius with
        hc | ⟨q1, q2, hc⟩ <;> rw [hc] at hp
      · exact Option.noConfusion hp
      · exact selectCorrectIntersection_pair q1 q2 _ hbR p hp

/-- C10 counterexample: selectCorrectIntersection returns a single
candidate without checking the boundary, so a lone candidate outside the
boundary circle is returned as is. -/
theorem selectCorrectIntersection_singleton_counterexample :
    selectCorrectIntersection [⟨π, 0⟩] (π / 2) = some ⟨π, 0⟩ ∧
    (π / 2) * (π / 2) < π * π + 0 * 0 := by
  constructor
  · rfl
  · nlinarith [Real.pi_pos]

/-- C10 amended: every finite 2D vertex produced by the hemispherical
projection lies on or inside the boundary circle of radius (pi/2) R; the
singleton case of selectCorrectIntersection is unchecked, but in this
pipeline it only arises from a segment-segment intersection whose segment
endpoints already lie within the boundary. -/
theorem hemiProjectVertex_within_boundary (worldVertex viewpointPosition : Vec3)
    (hemisphereRadius : ℝ) (hR : 0 < hemisphereRadius) :
    ∀ p, hemiProjectVertex worldVertex viewpointPosition hemisphereRadius = some p →
      p.x * p.x + p.y * p.y ≤
        ((π / 2) * hemisphereRadius) * ((π / 2) * hemisphereRadius) := by
  intro p hp
  exact hemiProjectDirection_in_boundary _ _ _ hR
    (hemiTheta_abs_le (normalize3 (worldVertex - viewpointPosition)))
    (hemiPhi_abs_le (normalize3 (worldVertex - viewpointPosition))) p hp

/-- Witness for the amended C10: the vertex straight below the viewpoint
projects to the center of the disc. -/
theorem hemiProjectVertex_within_boundary_witness :
    hemiProjectVertex ⟨0, 0, -1⟩ ⟨0, 0, 0⟩ 1 = some ⟨0, 0⟩ ∧
    (0 : ℝ) * 0 + 0 * 0 ≤ ((π / 2) * 1) * ((π / 2) * 1) := by
  have heval : hemiProjectVertex ⟨0, 0, -1⟩ ⟨0, 0, 0⟩ 1 = some ⟨0, 0⟩ := by
    have hdir : normalize3 ((⟨0, 0, -1⟩ : Vec3) - ⟨0, 0, 0⟩) = ⟨0, 0, -1⟩ := by
      simp only [normalize3, dot3]
      norm_num [Real.sqrt_one]
    have hyz : normalize3 (⟨0, (0 : ℝ), -1⟩ : Vec3) = ⟨0, 0, -1⟩ := by
      simp only [normalize3, dot3]
      norm_num [Real.sqrt_one]
    have htheta : hemiTheta ⟨0, 0, -1⟩ = 0 := by
      simp only [hemiTheta, hyz]
      norm_num [atan2, Real.arctan_zero]
    have hphi : hemiPhi ⟨0, 0, -1⟩ = 0 := by
      simp only [hemiPhi, hyz]
      norm_num [atan2, Real.arctan_zero]
    rw [hemiProjectVertex, hdir, htheta, hphi, hemiProjectDirection]
    norm_num
  exact ⟨heval,
    hemiProjectVertex_within_boundary ⟨0, 0, -1⟩ ⟨0, 0, 0⟩ 1 (by norm_num) ⟨0, 0⟩ heval⟩

end
